import Mathlib

/-!
# Shallow embedding of the buffett-screener provider-integration layer

This file models the provider-integration core of the repository
(`apps/api/app/providers/base.py`, `registry.py`, `yahoo_yfinance.py`,
`apps/api/app/domain/provider_contracts.py`, `apps/api/app/models/provider.py`)
and proves / refutes the specification claims about it.

Conventions of the embedding:
* Python `float` time values and monetary values are modelled as `ℚ`
  (the code performs only comparisons, `+`, `-`, `min` and `*` on them).
* Python `deque` of timestamps is a `List ℚ` (front of the list = left end
  of the deque); `popleft` while a condition holds is `List.dropWhile`.
* Exceptions are modelled by explicit result types; an `except` clause that
  converts an exception into a value becomes a `match` on that result type.
* `asyncio.sleep` is modelled by an explicit monotone clock: each operation
  takes the current time as an argument and returns the time at which it
  completes; a sleep advances the clock by exactly the slept duration.
-/

namespace BuffettScreener

/-! ## RateLimiter (apps/api/app/providers/base.py, class RateLimiter) -/

/-- State of the sliding-window rate limiter: configuration plus the deque
of recorded request timestamps (`self.request_times`), oldest first. -/
structure RateLimiter where
  max_requests : ℕ
  time_window_seconds : ℚ
  request_times : List ℚ
deriving Repr, DecidableEq

/-- The pruning loop
`while self.request_times and current_time - self.request_times[0] > self.time_window_seconds: popleft()`:
drop timestamps from the front while they are strictly older than the window. -/
def pruneTimes (window now : ℚ) (ts : List ℚ) : List ℚ :=
  ts.dropWhile (fun t0 => decide (now - t0 > window))

/-- `RateLimiter.acquire` at current time `now`.  Returns the new limiter
state and the time at which the call returns (the appended timestamp).
Mirrors the body of `async def acquire` line by line: prune, then either
append immediately (when below capacity) or sleep
`time_window_seconds - (now - request_times[0]) + 0.1`, re-prune at the
post-sleep time and append.  (With `max_requests = 0` the Python code would
crash on `request_times[0]` of an empty deque; `headD 0` makes the model
total there — all theorems assume `max_requests > 0`.) -/
def RateLimiter.acquire (rl : RateLimiter) (now : ℚ) : RateLimiter × ℚ :=
  let pruned := pruneTimes rl.time_window_seconds now rl.request_times
  if pruned.length < rl.max_requests then
    ({ rl with request_times := pruned ++ [now] }, now)
  else
    let sleep_time := rl.time_window_seconds - (now - pruned.headD 0) + 1/10
    let now2 := now + sleep_time
    let pruned2 := pruneTimes rl.time_window_seconds now2 pruned
    ({ rl with request_times := pruned2 ++ [now2] }, now2)

/-- `RateLimiter.get_remaining_requests`: prunes expired timestamps (a real
mutation of `self.request_times` in the source) and returns
`max(0, self.max_requests - len(self.request_times))`.  The returned pair is
(value, post-call limiter state). -/
def RateLimiter.get_remaining_requests (rl : RateLimiter) (now : ℚ) :
    ℤ × RateLimiter :=
  let pruned := pruneTimes rl.time_window_seconds now rl.request_times
  (max 0 ((rl.max_requests : ℤ) - pruned.length),
   { rl with request_times := pruned })

/-- Run a sequence of `acquire()` calls.  The `i`-th call is issued `dᵢ`
seconds after the previous call returned (a monotone clock); the result is
the list of recorded (appended) request timestamps, in order. -/
def acquireTimes (rl : RateLimiter) (now : ℚ) : List ℚ → List ℚ
  | [] => []
  | d :: ds =>
      let r := rl.acquire (now + d)
      r.2 :: acquireTimes r.1 r.2 ds

/-- Number of recorded timestamps lying within the trailing window
`[t - window, t]` at instant `t`. -/
def countWithin (window t : ℚ) (log : List ℚ) : ℕ :=
  (log.filter (fun r => decide (t - window ≤ r ∧ r ≤ t))).length

/-! ### Lemmas for the sliding-window invariant (claim C1) -/

/-- Pruning at time `now` keeps (at least) every timestamp still inside the
window: the within-window part of the queue is a sublist of the pruned queue. -/
theorem filter_within_sublist_prune (w now : ℚ) (l : List ℚ) :
    List.Sublist (l.filter (fun r => decide (now - r ≤ w))) (pruneTimes w now l) := by
  unfold pruneTimes
  conv_lhs =>
    rw [← List.takeWhile_append_dropWhile (p := fun t0 => decide (now - t0 > w)) (l := l)]
  rw [List.filter_append]
  have h1 : (l.takeWhile (fun t0 => decide (now - t0 > w))).filter
      (fun r => decide (now - r ≤ w)) = [] := by
    refine List.filter_eq_nil_iff.mpr ?_
    intro a ha
    have hp := List.mem_takeWhile_imp ha
    simp only [decide_eq_true_eq] at hp ⊢
    linarith
  rw [h1, List.nil_append]
  exact List.filter_sublist _

/-- Transporting the log-in-queue invariant through one pruning step:
if everything in the log still within the window at time `T` sits in the
queue, then everything still within the window at a later time `tc` sits in
the queue pruned at `tc`. -/
theorem filter_chain (w T tc : ℚ) (log queue : List ℚ) (hTle : T ≤ tc)
    (hsub : List.Sublist (log.filter (fun r => decide (T - r ≤ w))) queue) :
    List.Sublist (log.filter (fun r => decide (tc - r ≤ w))) (pruneTimes w tc queue) := by
  have hmono : List.Sublist (log.filter (fun r => decide (tc - r ≤ w)))
      (log.filter (fun r => decide (T - r ≤ w))) := by
    refine List.monotone_filter_right log ?_
    intro a ha
    simp only [decide_eq_true_eq] at ha ⊢
    linarith
  have hq : List.Sublist (log.filter (fun r => decide (tc - r ≤ w))) queue :=
    hmono.trans hsub
  have hself : (log.filter (fun r => decide (tc - r ≤ w))).filter
      (fun r => decide (tc - r ≤ w)) = log.filter (fun r => decide (tc - r ≤ w)) :=
    List.filter_eq_self.mpr (fun a ha => (List.mem_filter.mp ha).2)
  have hstep : List.Sublist (log.filter (fun r => decide (tc - r ≤ w)))
      (queue.filter (fun r => decide (tc - r ≤ w))) := by
    rw [← hself]; exact hq.filter _
  exact hstep.trans (filter_within_sublist_prune w tc queue)

/-- Appending a new timestamp preserves the at-every-instant window bound,
provided the new timestamp sees at most `M - 1` still-live log entries. -/
theorem countWithin_append_le (w : ℚ) (M : ℕ) (log : List ℚ) (tc : ℚ)
    (hold : ∀ t, countWithin w t log ≤ M)
    (hbound : (log.filter (fun r => decide (tc - r ≤ w))).length + 1 ≤ M) :
    ∀ t, countWithin w t (log ++ [tc]) ≤ M := by
  intro t
  unfold countWithin at hold ⊢
  rw [List.filter_append]
  by_cases hin : t - w ≤ tc ∧ tc ≤ t
  · have hfil : [tc].filter (fun r => decide (t - w ≤ r ∧ r ≤ t)) = [tc] := by
      simp only [List.filter_cons, List.filter_nil, decide_eq_true_eq]
      rw [if_pos hin]
    rw [hfil, List.length_append, List.length_singleton]
    have hsub : List.Sublist (log.filter (fun r => decide (t - w ≤ r ∧ r ≤ t)))
        (log.filter (fun r => decide (tc - r ≤ w))) := by
      refine List.monotone_filter_right log ?_
      intro a ha
      simp only [decide_eq_true_eq] at ha ⊢
      linarith [ha.1, hin.2]
    have := hsub.length_le
    omega
  · have hfil : [tc].filter (fun r => decide (t - w ≤ r ∧ r ≤ t)) = [] := by
      simp only [List.filter_cons, List.filter_nil]
      rw [if_neg]
      simp only [decide_eq_true_eq]
      exact hin
    rw [hfil, List.append_nil]
    exact hold t

/-- The head of a `dropWhile` result falsifies the dropped predicate. -/
theorem head_dropWhile_false (p : ℚ → Bool) :
    ∀ (l : List ℚ) (a : ℚ) (t : List ℚ), l.dropWhile p = a :: t → p a = false := by
  intro l
  induction l with
  | nil => intro a t h; simp [List.dropWhile] at h
  | cons x xs ih =>
      intro a t h
      rw [List.dropWhile_cons] at h
      by_cases hx : p x = true
      · rw [if_pos hx] at h
        exact ih a t h
      · rw [if_neg hx] at h
        cases h
        exact Bool.not_eq_true _ ▸ eq_false_of_ne_true hx

/-- Main induction for the sliding-window invariant: starting from any
limiter state whose queue respects the invariants, every instant after any
further sequence of `acquire()` calls sees at most `max_requests` recorded
timestamps inside the trailing window. -/
theorem acquireTimes_window_inv (M : ℕ) (w : ℚ) (hM : 0 < M) (hw : 0 < w) :
    ∀ (delays queue log : List ℚ) (T : ℚ),
      (∀ d ∈ delays, 0 ≤ d) →
      queue.length ≤ M →
      (∀ r ∈ log, r ≤ T) →
      List.Sublist (log.filter (fun r => decide (T - r ≤ w))) queue →
      (∀ t, countWithin w t log ≤ M) →
      ∀ t, countWithin w t (log ++ acquireTimes ⟨M, w, queue⟩ T delays) ≤ M := by
  intro delays
  induction delays with
  | nil =>
      intro queue log T _ _ _ _ hcount t
      simpa [acquireTimes] using hcount t
  | cons d ds ih =>
      intro queue log T hd hq hlogT hsub hcount t
      have hd0 : 0 ≤ d := hd d (by simp)
      have hds : ∀ d' ∈ ds, 0 ≤ d' := fun d' h => hd d' (by simp [h])
      have hTtc : T ≤ T + d := by linarith
      have hchain1 : List.Sublist
          ((log.filter (fun r => decide ((T + d) - r ≤ w))))
          (pruneTimes w (T + d) queue) :=
        filter_chain w T (T + d) log queue hTtc hsub
      have hprq : (pruneTimes w (T + d) queue).length ≤ M :=
        le_trans (List.dropWhile_sublist _).length_le hq
      by_cases hlen : (pruneTimes w (T + d) queue).length < M
      · -- below capacity: append immediately at the call time
        have hacq : RateLimiter.acquire ⟨M, w, queue⟩ (T + d) =
            (⟨M, w, pruneTimes w (T + d) queue ++ [T + d]⟩, T + d) := by
          simp only [RateLimiter.acquire]
          rw [if_pos hlen]
        rw [acquireTimes, hacq]
        have hgoal : log ++ ((T + d) ::
            acquireTimes ⟨M, w, pruneTimes w (T + d) queue ++ [T + d]⟩ (T + d) ds) =
            (log ++ [T + d]) ++
            acquireTimes ⟨M, w, pruneTimes w (T + d) queue ++ [T + d]⟩ (T + d) ds := by
          simp
        rw [hgoal]
        refine ih (pruneTimes w (T + d) queue ++ [T + d]) (log ++ [T + d]) (T + d)
          hds ?_ ?_ ?_ ?_ t
        · rw [List.length_append, List.length_singleton]; omega
        · intro r hr
          rcases List.mem_append.mp hr with h | h
          · exact le_trans (hlogT r h) hTtc
          · simp at h; simp [h]
        · rw [List.filter_append]
          have hfil : [T + d].filter (fun r => decide ((T + d) - r ≤ w)) = [T + d] := by
            simp only [List.filter_cons, List.filter_nil, decide_eq_true_eq]
            rw [if_pos (by linarith)]
          rw [hfil]
          exact hchain1.append (List.Sublist.refl _)
        · refine countWithin_append_le w M log (T + d) hcount ?_
          have := hchain1.length_le
          omega
      · -- at capacity: sleep past the oldest timestamp, re-prune, append
        have hne : pruneTimes w (T + d) queue ≠ [] := by
          intro hnil
          rw [hnil] at hlen
          simp at hlen
          omega
        obtain ⟨h0, rest, hpruned⟩ := List.exists_cons_of_ne_nil hne
        have hh0 : (T + d) - h0 ≤ w := by
          have := head_dropWhile_false (fun t0 => decide ((T + d) - t0 > w)) queue h0 rest
            (by rw [← hpruned]; rfl)
          simp only [decide_eq_true_eq] at this
          have := of_decide_eq_false this
          linarith [not_lt.mp this]
        have hheadD : (pruneTimes w (T + d) queue).headD 0 = h0 := by
          rw [hpruned]; rfl
        have htc' : T + d ≤ (T + d) + (w - ((T + d) - h0) + 1/10) := by linarith
        have hacq : RateLimiter.acquire ⟨M, w, queue⟩ (T + d) =
            (⟨M, w, pruneTimes w ((T + d) + (w - ((T + d) - h0) + 1/10))
                (pruneTimes w (T + d) queue) ++
                [(T + d) + (w - ((T + d) - h0) + 1/10)]⟩,
             (T + d) + (w - ((T + d) - h0) + 1/10)) := by
          simp only [RateLimiter.acquire]
          rw [if_neg hlen, hheadD]
        set tc' := (T + d) + (w - ((T + d) - h0) + 1/10) with htcdef
        have hdrop : pruneTimes w tc' (pruneTimes w (T + d) queue) =
            rest.dropWhile (fun t0 => decide (tc' - t0 > w)) := by
          rw [hpruned]
          unfold pruneTimes
          rw [List.dropWhile_cons, if_pos]
          simp only [decide_eq_true_eq]
          rw [htcdef]
          linarith
        have hp2len : (pruneTimes w tc' (pruneTimes w (T + d) queue)).length + 1 ≤ M := by
          rw [hdrop]
          have h1 := (List.dropWhile_sublist (fun t0 => decide (tc' - t0 > w))
            (l := rest)).length_le
          have h2 : (pruneTimes w (T + d) queue).length = rest.length + 1 := by
            rw [hpruned]; rfl
          omega
        have hchain2 : List.Sublist (log.filter (fun r => decide (tc' - r ≤ w)))
            (pruneTimes w tc' (pruneTimes w (T + d) queue)) :=
          filter_chain w (T + d) tc' log (pruneTimes w (T + d) queue) htc' hchain1
        rw [acquireTimes, hacq]
        have hgoal : log ++ (tc' ::
            acquireTimes ⟨M, w, pruneTimes w tc' (pruneTimes w (T + d) queue) ++ [tc']⟩
              tc' ds) =
            (log ++ [tc']) ++
            acquireTimes ⟨M, w, pruneTimes w tc' (pruneTimes w (T + d) queue) ++ [tc']⟩
              tc' ds := by
          simp
        rw [hgoal]
        refine ih (pruneTimes w tc' (pruneTimes w (T + d) queue) ++ [tc']) (log ++ [tc'])
          tc' hds ?_ ?_ ?_ ?_ t
        · rw [List.length_append, List.length_singleton]; omega
        · intro r hr
          rcases List.mem_append.mp hr with h | h
          · exact le_trans (hlogT r h) (le_trans hTtc htc')
          · simp at h; simp [h]
        · rw [List.filter_append]
          have hfil : [tc'].filter (fun r => decide (tc' - r ≤ w)) = [tc'] := by
            simp only [List.filter_cons, List.filter_nil, decide_eq_true_eq]
            rw [if_pos (by linarith)]
          rw [hfil]
          exact hchain2.append (List.Sublist.refl _)
        · refine countWithin_append_le w M log tc' hcount ?_
          have := hchain2.length_le
          omega

/-- Pruning is idempotent at a fixed instant. -/
theorem pruneTimes_idem (w now : ℚ) (l : List ℚ) :
    pruneTimes w now (pruneTimes w now l) = pruneTimes w now l := by
  unfold pruneTimes
  cases hdw : l.dropWhile (fun t0 => decide (now - t0 > w)) with
  | nil => rfl
  | cons a t =>
      have hfa := head_dropWhile_false _ l a t hdw
      rw [List.dropWhile_cons, hfa]
      simp

/-- On a sorted (ascending) queue, pruning keeps exactly the timestamps not
older than the window, so its length is the within-window count. -/
theorem length_pruneTimes_sorted (w now : ℚ) :
    ∀ l : List ℚ, List.Pairwise (· ≤ ·) l →
      (pruneTimes w now l).length =
        (l.filter (fun r => decide (now - r ≤ w))).length := by
  intro l
  induction l with
  | nil => intro _; rfl
  | cons a l ih =>
      intro hs
      have hsl := (List.pairwise_cons.mp hs).2
      have hab := (List.pairwise_cons.mp hs).1
      unfold pruneTimes at ih ⊢
      rw [List.dropWhile_cons, List.filter_cons]
      by_cases ha : now - a > w
      · rw [if_pos (by simpa using ha)]
        have : (decide (now - a ≤ w)) = false := by
          simp only [decide_eq_false_iff_not]
          linarith
        rw [this]
        simp only [Bool.false_eq_true, if_neg (by simp : ¬False)]
        exact ih hsl
      · rw [if_neg (by simpa using ha)]
        have : (decide (now - a ≤ w)) = true := by
          simp only [decide_eq_true_eq]
          linarith
        rw [this]
        simp only [if_pos trivial]
        have hall : l.filter (fun r => decide (now - r ≤ w)) = l := by
          refine List.filter_eq_self.mpr ?_
          intro b hb
          have := hab b hb
          simp only [decide_eq_true_eq]
          linarith
        rw [hall]

/-- C1: for every sequence of `acquire()` calls on a limiter with
`max_requests > 0` and `window_seconds > 0`, under a monotone clock
(successive calls issued after nonnegative extra delays), at every instant
the number of recorded request timestamps in the trailing window never
exceeds `max_requests`; and each call either returns at the call instant
(appending immediately, when the pruned queue is below capacity) or returns
after suspending exactly `window_seconds - (now - oldest) + 0.1`. -/
theorem rateLimiter_sliding_window_invariant
    (M : ℕ) (w t0 : ℚ) (delays : List ℚ)
    (hM : 0 < M) (hw : 0 < w) (hd : ∀ d ∈ delays, 0 ≤ d) :
    (∀ t : ℚ, countWithin w t (acquireTimes ⟨M, w, []⟩ t0 delays) ≤ M) ∧
    (∀ (rl : RateLimiter) (now : ℚ),
      (if (pruneTimes rl.time_window_seconds now rl.request_times).length <
          rl.max_requests
       then (rl.acquire now).2 = now
       else (rl.acquire now).2 = now + (rl.time_window_seconds -
          (now - (pruneTimes rl.time_window_seconds now rl.request_times).headD 0)
          + 1/10))) := by
  constructor
  · intro t
    have h := acquireTimes_window_inv M w hM hw delays [] [] t0 hd
      (by simp) (by simp) (by simp) (by intro t'; simp [countWithin]) t
    simpa using h
  · intro rl now
    by_cases hlen : (pruneTimes rl.time_window_seconds now rl.request_times).length <
        rl.max_requests
    · rw [if_pos hlen]
      simp only [RateLimiter.acquire]
      rw [if_pos hlen]
    · rw [if_neg hlen]
      simp only [RateLimiter.acquire]
      rw [if_neg hlen]

/-- Witness for C1 at `max_requests = 3`, `window = 1`, four back-to-back
calls at time 0: the fourth is recorded at `1.1`, and at instant `1.1` only
one timestamp is inside the trailing window. -/
theorem rateLimiter_sliding_window_invariant_witness :
    0 < 3 ∧ (0 : ℚ) < 1 ∧
      countWithin 1 (11/10) (acquireTimes ⟨3, 1, []⟩ 0 [0, 0, 0, 0]) ≤ 3 :=
  ⟨by decide, by norm_num,
   (rateLimiter_sliding_window_invariant 3 1 0 [0, 0, 0, 0]
      (by decide) (by norm_num) (by intro d hd; fin_cases hd <;> norm_num)).1 (11/10)⟩

/-- C9: `get_remaining_requests` returns
`max(0, max_requests - (count of timestamps not older than the window))`
on any sorted queue, and it is observationally read-only: a subsequent
`acquire()` or `get_remaining_requests()` at the same instant behaves
exactly as it would have on the un-pruned state. -/
theorem get_remaining_requests_spec (rl : RateLimiter) (now : ℚ)
    (hs : List.Pairwise (· ≤ ·) rl.request_times) :
    (rl.get_remaining_requests now).1 =
      max 0 ((rl.max_requests : ℤ) -
        (rl.request_times.filter
          (fun r => decide (now - r ≤ rl.time_window_seconds))).length) ∧
    ((rl.get_remaining_requests now).2.acquire now = rl.acquire now ∧
     ((rl.get_remaining_requests now).2.get_remaining_requests now =
        ((rl.get_remaining_requests now).1, (rl.get_remaining_requests now).2))) := by
  refine ⟨?_, ?_, ?_⟩
  · simp only [RateLimiter.get_remaining_requests]
    rw [length_pruneTimes_sorted rl.time_window_seconds now rl.request_times hs]
  · simp only [RateLimiter.get_remaining_requests, RateLimiter.acquire]
    rw [pruneTimes_idem]
  · simp only [RateLimiter.get_remaining_requests]
    rw [pruneTimes_idem]

/-- Witness for C9 on the sorted queue `[0, 1/2]` with `max_requests = 3`,
`window = 1`, at instant `7/4`: one timestamp (`1/2`) is still within the
window, so 2 requests remain. -/
theorem get_remaining_requests_spec_witness :
    List.Pairwise (· ≤ ·) ([0, 1/2] : List ℚ) ∧
      ((⟨3, 1, [0, 1/2]⟩ : RateLimiter).get_remaining_requests (7/4)).1 =
        max 0 ((3 : ℤ) -
          (([0, 1/2] : List ℚ).filter
            (fun r => decide ((7/4 : ℚ) - r ≤ 1))).length) :=
  ⟨by norm_num,
   (get_remaining_requests_spec ⟨3, 1, [0, 1/2]⟩ (7/4) (by norm_num)).1⟩

/-! ## Exceptions (app/domain/provider_contracts.py) and the retry executor
(`BaseProvider.with_retry`, apps/api/app/providers/base.py) -/

/-- Exceptions that can cross `with_retry`: the `ProviderError` hierarchy
(`ProviderError`, its subclass `RateLimitError`) with the constructor
arguments of `ProviderError.__init__`, and arbitrary other exceptions
(`except Exception`) carrying their type name and message. -/
inductive Exc where
  | providerError (message provider_name : String) (ticker : Option String)
      (original_exception : Option Exc)
  | rateLimitError (message provider_name : String) (ticker : Option String)
      (original_exception : Option Exc)
  | otherExc (typeName message : String)
deriving Repr

/-- `type(e).__name__`. -/
def Exc.typeName : Exc → String
  | .providerError .. => "ProviderError"
  | .rateLimitError .. => "RateLimitError"
  | .otherExc n _ => n

/-- `ProviderError.__str__`: `"[provider]"`, then `"ticker=<t>"` when the
ticker is truthy (present and nonempty), then the message, then
`"(caused by: <cause type name>)"` when a cause is attached, joined by
single spaces. -/
def pyProviderErrorStr (m p : String) (t : Option String) (o : Option Exc) : String :=
  let parts := ["[" ++ p ++ "]"]
  let parts := parts ++ (match t with
    | some tk => if tk != "" then ["ticker=" ++ tk] else []
    | none => [])
  let parts := parts ++ [m]
  let parts := parts ++ (match o with
    | some e => ["(caused by: " ++ e.typeName ++ ")"]
    | none => [])
  String.intercalate " " parts

/-- `str(e)`: `ProviderError.__str__` for the hierarchy (inherited by
`RateLimitError`), the plain message for other exceptions. -/
def Exc.str : Exc → String
  | .providerError m p t o => pyProviderErrorStr m p t o
  | .rateLimitError m p t o => pyProviderErrorStr m p t o
  | .otherExc _ m => m

/-- `e.message` of a `ProviderError` (the `message` constructor argument). -/
def Exc.message : Exc → String
  | .providerError m _ _ _ => m
  | .rateLimitError m _ _ _ => m
  | .otherExc _ m => m

/-- Whether `needle` starts the character list `hay`. -/
def charsStartWith : List Char → List Char → Bool
  | [], _ => true
  | _ :: _, [] => false
  | a :: as, b :: bs => a == b && charsStartWith as bs

/-- Whether `needle` occurs contiguously inside `hay`. -/
def charsContains (needle : List Char) : List Char → Bool
  | [] => charsStartWith needle []
  | b :: t => charsStartWith needle (b :: t) || charsContains needle t

/-- `needle in hay` on Python strings (contiguous substring test). -/
def pyContains (hay needle : String) : Bool :=
  charsContains needle.data hay.data

/-- A list starts with itself (followed by anything). -/
theorem charsStartWith_append_self :
    ∀ (n post : List Char), charsStartWith n (n ++ post) = true := by
  intro n
  induction n with
  | nil => intro post; rfl
  | cons a as ih =>
      intro post
      rw [List.cons_append, charsStartWith]
      simp [ih post]

/-- Any contiguous occurrence makes `charsContains` true. -/
theorem charsContains_of_append (n : List Char) :
    ∀ (pre post hay : List Char), hay = pre ++ n ++ post →
      charsContains n hay = true := by
  intro pre
  induction pre with
  | nil =>
      intro post hay hh
      subst hh
      cases hn : (n ++ post : List Char) with
      | nil =>
          rw [List.nil_append, hn, charsContains]
          have : n = [] := by
            cases n with
            | nil => rfl
            | cons a as => simp at hn
          rw [this]
          rfl
      | cons b t =>
          rw [List.nil_append, hn, charsContains, ← hn,
            charsStartWith_append_self]
          rfl
  | cons x pre' ih =>
      intro post hay hh
      subst hh
      rw [List.cons_append, List.cons_append, charsContains,
        ih post (pre' ++ n ++ post) rfl]
      simp

/-- Substring occurrence at the String level. -/
theorem pyContains_of_data (hay needle : String) (pre post : List Char)
    (h : hay.data = pre ++ needle.data ++ post) : pyContains hay needle = true :=
  charsContains_of_append needle.data pre post hay.data h

/-- `str.lower()` on a single character (ASCII; the classification strings
involved here are all ASCII). -/
def pyLowerChar (c : Char) : Char :=
  if 'A' ≤ c ∧ c ≤ 'Z' then Char.ofNat (c.toNat + 32) else c

/-- `str.lower()` (ASCII). -/
def pyLower (s : String) : String :=
  ⟨s.data.map pyLowerChar⟩

/-- The permanent-error test of `with_retry`:
`"invalid" in str(e).lower() or "not found" in str(e).lower()`. -/
def isPermanentStr (s : String) : Bool :=
  pyContains (pyLower s) "invalid" || pyContains (pyLower s) "not found"

/-- How `with_retry`'s `except` ladder disposes of a raised exception:
re-raise it unchanged, or record it and keep trying. -/
inductive ErrAction where
  | reraise
  | transient
deriving Repr, DecidableEq

/-- The classification implemented by the three `except` clauses of
`with_retry`: `RateLimitError` is re-raised; a `ProviderError` is re-raised
iff `str(e).lower()` contains "invalid" or "not found"; everything else is
transient.  Note the test is on `str(e)` — the full `__str__` rendering —
not on `e.message` alone. -/
def classifyExc : Exc → ErrAction
  | .rateLimitError .. => .reraise
  | .providerError m p t o =>
      if isPermanentStr (Exc.str (.providerError m p t o)) then .reraise else .transient
  | .otherExc .. => .transient

/-- One attempt of the wrapped operation: return a value or raise. -/
inductive Outcome (α : Type) where
  | ok (v : α)
  | raise (e : Exc)
deriving Repr

/-- An outcome the executor treats as transient. -/
def Outcome.isTransient {α : Type} : Outcome α → Bool
  | .ok _ => false
  | .raise e => match classifyExc e with
      | .transient => true
      | .reraise => false

/-- What `with_retry` does in the end: return the operation's value or
raise an exception (either a re-raised one or the final wrapping
`ProviderError`). -/
inductive RetryResult (α : Type) where
  | returned (v : α)
  | raised (e : Exc)
deriving Repr

/-- The retry-relevant configuration of `BaseProvider` plus the `ticker`
keyword argument of the `with_retry` call. -/
structure RetryConfig where
  retry_attempts : ℕ
  retry_base_delay : ℚ
  retry_max_delay : ℚ
  provider_name : String
  ticker : Option String
deriving Repr, DecidableEq

/-- The final `ProviderError` raised after the loop: message
`"Failed after {n} attempts"`, plus `" for ticker {t}"` when the ticker is
truthy, wrapping the last recorded exception. -/
def retryFinalError (cfg : RetryConfig) (last : Option Exc) : Exc :=
  let error_msg := "Failed after " ++ toString cfg.retry_attempts ++ " attempts"
  let error_msg := match cfg.ticker with
    | some t => if t != "" then error_msg ++ " for ticker " ++ t else error_msg
    | none => error_msg
  .providerError error_msg cfg.provider_name cfg.ticker last

/-- Exponential backoff: `min(base_delay * 2^(attempt-1), max_delay)`. -/
def backoffDelay (cfg : RetryConfig) (attempt : ℕ) : ℚ :=
  min (cfg.retry_base_delay * 2 ^ (attempt - 1)) cfg.retry_max_delay

/-- The retry loop of `with_retry` from attempt number `attempt` with
`remaining` attempts left and `last` the last recorded exception
(`last_exception`).  Returns the result, the list of backoff sleeps
performed, and the number of times the operation was invoked. -/
def withRetryGo {α : Type} (cfg : RetryConfig) (op : ℕ → Outcome α) (attempt : ℕ) :
    ℕ → Option Exc → RetryResult α × List ℚ × ℕ
  | 0, last => (.raised (retryFinalError cfg last), [], 0)
  | r + 1, last =>
    match op attempt with
    | .ok v => (.returned v, [], 1)
    | .raise e =>
      match classifyExc e with
      | .reraise => (.raised e, [], 1)
      | .transient =>
        if r = 0 then
          (.raised (retryFinalError cfg (some e)), [], 1)
        else
          let rest := withRetryGo cfg op (attempt + 1) r (some e)
          (rest.1, backoffDelay cfg attempt :: rest.2.1, rest.2.2 + 1)

/-- `BaseProvider.with_retry`: attempts numbered `1 .. retry_attempts`,
starting with `last_exception = None`. -/
def with_retry {α : Type} (cfg : RetryConfig) (op : ℕ → Outcome α) :
    RetryResult α × List ℚ × ℕ :=
  withRetryGo cfg op 1 cfg.retry_attempts none

/-! ### Lemmas about the retry loop -/

/-- A transient outcome is a raised exception classified transient. -/
theorem isTransient_exists {α : Type} (o : Outcome α) (h : o.isTransient = true) :
    ∃ e, o = .raise e ∧ classifyExc e = .transient := by
  cases o with
  | ok v => simp [Outcome.isTransient] at h
  | raise e =>
      refine ⟨e, rfl, ?_⟩
      cases hc : classifyExc e
      · rw [Outcome.isTransient, hc] at h
        simp at h
      · rfl

/-- Splitting the first backoff delay off a block of consecutive delays. -/
theorem range_map_delay (cfg : RetryConfig) (a n : ℕ) :
    (List.range (n + 1)).map (fun i => backoffDelay cfg (a + i)) =
      backoffDelay cfg a ::
        (List.range n).map (fun i => backoffDelay cfg (a + 1 + i)) := by
  rw [List.range_succ_eq_map, List.map_cons, List.map_map]
  have hf : ((fun i => backoffDelay cfg (a + i)) ∘ Nat.succ) =
      (fun i => backoffDelay cfg (a + 1 + i)) := by
    funext i
    simp only [Function.comp]
    congr 1
    omega
  rw [hf]
  simp

/-- If the first `j` attempts are transient and attempt `a + j` raises a
non-retryable exception, the loop re-raises it at once: `j` backoff sleeps
taken and `j + 1` invocations in total — zero additional attempts after the
re-raised one. -/
theorem go_reraise {α : Type} (cfg : RetryConfig) (op : ℕ → Outcome α) :
    ∀ (j r a : ℕ) (last : Option Exc) (e : Exc),
      j < r →
      (∀ i, i < j → (op (a + i)).isTransient = true) →
      op (a + j) = .raise e → classifyExc e = .reraise →
      withRetryGo cfg op a r last =
        (.raised e, (List.range j).map (fun i => backoffDelay cfg (a + i)), j + 1) := by
  intro j
  induction j with
  | zero =>
      intro r a last e hr _ hop hcl
      obtain ⟨r', rfl⟩ : ∃ r', r = r' + 1 := ⟨r - 1, by omega⟩
      rw [withRetryGo]
      simp only [Nat.add_zero] at hop
      rw [hop]
      simp [hcl]
  | succ j' ih =>
      intro r a last e hr htr hop hcl
      obtain ⟨r', rfl⟩ : ∃ r', r = r' + 1 := ⟨r - 1, by omega⟩
      have hr' : j' < r' := by omega
      obtain ⟨ea, hopa, hcla⟩ := isTransient_exists (op a)
        (by simpa using htr 0 (by omega))
      rw [withRetryGo, hopa]
      simp only [hcla]
      rw [if_neg (by omega)]
      have hrest := ih r' (a + 1) (some ea) e hr'
        (fun i hi => by
          have := htr (i + 1) (by omega)
          simpa [Nat.add_assoc, Nat.add_comm 1 i] using this)
        (by
          have : a + 1 + j' = a + (j' + 1) := by omega
          rw [this]; exact hop)
        hcl
      rw [hrest, range_map_delay]

/-- The loop invokes the operation at least once when attempts remain. -/
theorem go_calls_pos {α : Type} (cfg : RetryConfig) (op : ℕ → Outcome α)
    (a r : ℕ) (last : Option Exc) (hr : 1 ≤ r) :
    1 ≤ (withRetryGo cfg op a r last).2.2 := by
  obtain ⟨r', rfl⟩ : ∃ r', r = r' + 1 := ⟨r - 1, by omega⟩
  rw [withRetryGo]
  cases hop : op a with
  | ok v => simp
  | raise e =>
      cases hc : classifyExc e with
      | reraise => simp [hc]
      | transient =>
          by_cases h0 : r' = 0
          · simp [hc, h0]
          · simp only [hc, if_neg h0]
            show 1 ≤ (withRetryGo cfg op (a + 1) r' (some e)).2.2 + 1
            omega

/-- If attempts `a .. a + j` are all transient and more attempts remain,
the loop keeps retrying: at least `j + 2` invocations happen. -/
theorem go_calls_ge {α : Type} (cfg : RetryConfig) (op : ℕ → Outcome α) :
    ∀ (j r a : ℕ) (last : Option Exc),
      j + 1 < r →
      (∀ i, i ≤ j → (op (a + i)).isTransient = true) →
      j + 2 ≤ (withRetryGo cfg op a r last).2.2 := by
  intro j
  induction j with
  | zero =>
      intro r a last hr htr
      obtain ⟨r', rfl⟩ : ∃ r', r = r' + 1 := ⟨r - 1, by omega⟩
      have hr' : 1 ≤ r' := by omega
      obtain ⟨ea, hopa, hcla⟩ := isTransient_exists (op a)
        (by simpa using htr 0 (by omega))
      rw [withRetryGo, hopa]
      simp only [hcla]
      rw [if_neg (by omega)]
      have := go_calls_pos cfg op (a + 1) r' (some ea) hr'
      show 0 + 2 ≤ (withRetryGo cfg op (a + 1) r' (some ea)).2.2 + 1
      omega
  | succ j' ih =>
      intro r a last hr htr
      obtain ⟨r', rfl⟩ : ∃ r', r = r' + 1 := ⟨r - 1, by omega⟩
      obtain ⟨ea, hopa, hcla⟩ := isTransient_exists (op a)
        (by simpa using htr 0 (by omega))
      rw [withRetryGo, hopa]
      simp only [hcla]
      rw [if_neg (by omega)]
      have hrest := ih r' (a + 1) (some ea) (by omega)
        (fun i hi => by
          have := htr (i + 1) (by omega)
          simpa [Nat.add_assoc, Nat.add_comm 1 i] using this)
      show j' + 1 + 2 ≤ (withRetryGo cfg op (a + 1) r' (some ea)).2.2 + 1
      omega

/-- If every one of the `r ≥ 1` remaining attempts is transient, the loop
exhausts them all: it raises the final wrapping `ProviderError` around the
last failure, sleeps `r - 1` backoff delays, and invokes the operation
exactly `r` times. -/
theorem go_all_transient {α : Type} (cfg : RetryConfig) (op : ℕ → Outcome α) :
    ∀ (r a : ℕ) (last : Option Exc) (e : Exc),
      1 ≤ r →
      (∀ i, i < r → (op (a + i)).isTransient = true) →
      op (a + (r - 1)) = .raise e →
      withRetryGo cfg op a r last =
        (.raised (retryFinalError cfg (some e)),
         (List.range (r - 1)).map (fun i => backoffDelay cfg (a + i)), r) := by
  intro r
  induction r with
  | zero => intro a last e hr; omega
  | succ r' ih =>
      intro a last e _ htr hop
      obtain ⟨ea, hopa, hcla⟩ := isTransient_exists (op a)
        (by simpa using htr 0 (by omega))
      by_cases h0 : r' = 0
      · have hop' : op a = Outcome.raise e := by
          have harg : a + (r' + 1 - 1) = a := by omega
          rw [harg] at hop
          exact hop
        have hea : ea = e := by
          rw [hopa] at hop'
          cases hop'
          rfl
        rw [hea] at hcla
        rw [withRetryGo, hopa]
        simp [hcla, h0, hea]
      · have hr' : 1 ≤ r' := by omega
        rw [withRetryGo, hopa]
        simp only [hcla]
        rw [if_neg h0]
        have hrest := ih (a + 1) (some ea) e hr'
          (fun i hi => by
            have := htr (i + 1) (by omega)
            simpa [Nat.add_assoc, Nat.add_comm 1 i] using this)
          (by
            have : a + 1 + (r' - 1) = a + (r' + 1 - 1) := by omega
            rw [this]; exact hop)
        show ((withRetryGo cfg op (a + 1) r' (some ea)).1,
            backoffDelay cfg a :: (withRetryGo cfg op (a + 1) r' (some ea)).2.1,
            (withRetryGo cfg op (a + 1) r' (some ea)).2.2 + 1) = _
        rw [hrest]
        have hrange : (List.range (r' + 1 - 1)).map (fun i => backoffDelay cfg (a + i)) =
            backoffDelay cfg a ::
              (List.range (r' - 1)).map (fun i => backoffDelay cfg (a + 1 + i)) := by
          have : r' + 1 - 1 = (r' - 1) + 1 := by omega
          rw [this, range_map_delay]
        rw [hrange]

/-- C2 counterexample: `with_retry` classifies on `str(e).lower()`, and
`ProviderError.__str__` prepends `"ticker=<ticker>"`.  A `ProviderError`
whose *message* (`"boom"`) contains neither "invalid" nor "not found" but
whose ticker is `"INVALID"` is therefore propagated immediately — one
single attempt, zero retries — although the claim (classification by the
message alone) says it must be treated as transient and retried. -/
theorem with_retry_message_classification_counterexample :
    Exc.message
        (.providerError "boom" "yahoo_finance" (some "INVALID") none) = "boom" ∧
    isPermanentStr "boom" = false ∧
    (with_retry (α := Unit) ⟨3, 1, 60, "yahoo_finance", some "INVALID"⟩
      (fun _ => .raise
        (.providerError "boom" "yahoo_finance" (some "INVALID") none))).2.2 = 1 ∧
    (with_retry (α := Unit) ⟨3, 1, 60, "yahoo_finance", some "INVALID"⟩
      (fun _ => .raise
        (.providerError "boom" "yahoo_finance" (some "INVALID") none))).1 =
      .raised (.providerError "boom" "yahoo_finance" (some "INVALID") none) :=
  ⟨rfl, by decide, rfl, rfl⟩

/-- C2 (amended): the retry executor classifies a raised exception by the
lower-cased *full string rendering* `str(e)` (for a `ProviderError` this is
`"[provider] ticker=<t> <message> (caused by: <type>)"`), not by the message
alone.  A `RateLimitError` propagates immediately with zero additional
attempts; a `ProviderError` whose rendering contains "invalid" or
"not found" (case-insensitively) propagates immediately with zero
additional attempts; every other raised exception is transient and, while
attempts remain, leads to a further attempt. -/
theorem with_retry_classification {α : Type} (cfg : RetryConfig)
    (op : ℕ → Outcome α) (k : ℕ) (hk1 : 1 ≤ k) (hk2 : k ≤ cfg.retry_attempts)
    (hprior : ∀ j, 1 ≤ j → j < k → (op j).isTransient = true) :
    (∀ m p t o, op k = .raise (.rateLimitError m p t o) →
      with_retry cfg op = (.raised (.rateLimitError m p t o),
        (List.range (k - 1)).map (fun i => backoffDelay cfg (1 + i)), k)) ∧
    (∀ m p t o, op k = .raise (.providerError m p t o) →
      isPermanentStr (pyProviderErrorStr m p t o) = true →
      with_retry cfg op = (.raised (.providerError m p t o),
        (List.range (k - 1)).map (fun i => backoffDelay cfg (1 + i)), k)) ∧
    (∀ e, op k = .raise e → classifyExc e = .transient → k < cfg.retry_attempts →
      k + 1 ≤ (with_retry cfg op).2.2) := by
  have hshift : ∀ i, i < k - 1 → (op (1 + i)).isTransient = true := by
    intro i hi
    exact hprior (1 + i) (by omega) (by omega)
  have harg : 1 + (k - 1) = k := by omega
  refine ⟨?_, ?_, ?_⟩
  · intro m p t o hop
    have h := go_reraise cfg op (k - 1) cfg.retry_attempts 1 none
      (.rateLimitError m p t o) (by omega) hshift (by rw [harg]; exact hop) rfl
    rw [with_retry, h]
    have : k - 1 + 1 = k := by omega
    rw [this]
  · intro m p t o hop hperm
    have hcl : classifyExc (.providerError m p t o) = .reraise := by
      rw [classifyExc]
      rw [if_pos]
      show isPermanentStr (Exc.str (.providerError m p t o)) = true
      exact hperm
    have h := go_reraise cfg op (k - 1) cfg.retry_attempts 1 none
      (.providerError m p t o) (by omega) hshift (by rw [harg]; exact hop) hcl
    rw [with_retry, h]
    have : k - 1 + 1 = k := by omega
    rw [this]
  · intro e hop hcl hlt
    have htr : ∀ i, i ≤ k - 1 → (op (1 + i)).isTransient = true := by
      intro i hi
      rcases Nat.lt_or_ge i (k - 1) with h | h
      · exact hshift i h
      · have : i = k - 1 := by omega
        subst this
        rw [harg, hop, Outcome.isTransient, hcl]
    have h := go_calls_ge cfg op (k - 1) cfg.retry_attempts 1 none (by omega) htr
    rw [with_retry]
    omega

/-- Witness for the amended C2 at `k = 2`: attempt 1 raises a transient
timeout, attempt 2 raises a `RateLimitError`, which propagates at once
after exactly 2 invocations and one backoff sleep. -/
theorem with_retry_classification_witness :
    with_retry (α := Unit) ⟨3, 1, 60, "y", none⟩
      (fun k => if k = 2 then .raise (.rateLimitError "throttled" "y" none none)
                else .raise (.otherExc "TimeoutError" "timed out")) =
      (.raised (.rateLimitError "throttled" "y" none none), [1], 2) := by
  have h := (with_retry_classification (α := Unit) ⟨3, 1, 60, "y", none⟩
    (fun k => if k = 2 then .raise (.rateLimitError "throttled" "y" none none)
              else .raise (.otherExc "TimeoutError" "timed out"))
    2 (by decide) (by decide)
    (by
      intro j h1 h2
      have : j = 1 := by omega
      subst this
      decide)).1 "throttled" "y" none none rfl
  rw [h]
  rw [show List.range (2 - 1) = [0] from rfl]
  simp [backoffDelay]

/-- C3: when every attempt raises a transient error, `with_retry` makes
exactly `retry_attempts` invocations; the sleep before attempt `k + 1` is
`min(base_delay * 2^(k-1), max_delay)` and none follows the last attempt;
the final raise is a `ProviderError` wrapping the last failure whose
message contains the attempt count and, when a truthy ticker was given,
the ticker. -/
theorem with_retry_exhaustion {α : Type} (cfg : RetryConfig)
    (op : ℕ → Outcome α) (e : Exc) (hN : 1 ≤ cfg.retry_attempts)
    (htrans : ∀ j, 1 ≤ j → j ≤ cfg.retry_attempts → (op j).isTransient = true)
    (hlast : op cfg.retry_attempts = .raise e) :
    with_retry cfg op =
      (.raised (retryFinalError cfg (some e)),
       (List.range (cfg.retry_attempts - 1)).map
         (fun i => min (cfg.retry_base_delay * 2 ^ i) cfg.retry_max_delay),
       cfg.retry_attempts) ∧
    pyContains (Exc.message (retryFinalError cfg (some e)))
      (toString cfg.retry_attempts) = true ∧
    (∀ t, cfg.ticker = some t → t ≠ "" →
      pyContains (Exc.message (retryFinalError cfg (some e))) t = true) := by
  refine ⟨?_, ?_, ?_⟩
  · have h := go_all_transient cfg op cfg.retry_attempts 1 none e hN
      (fun i hi => htrans (1 + i) (by omega) (by omega))
      (by
        have : 1 + (cfg.retry_attempts - 1) = cfg.retry_attempts := by omega
        rw [this]; exact hlast)
    rw [with_retry, h]
    have hmap : (List.range (cfg.retry_attempts - 1)).map
        (fun i => backoffDelay cfg (1 + i)) =
        (List.range (cfg.retry_attempts - 1)).map
          (fun i => min (cfg.retry_base_delay * 2 ^ i) cfg.retry_max_delay) := by
      refine List.map_congr_left ?_
      intro i _
      have hexp : 1 + i - 1 = i := by omega
      rw [backoffDelay, hexp]
    rw [hmap]
  · rcases hts : cfg.ticker with _ | t
    · simp only [retryFinalError, hts, Exc.message]
      exact pyContains_of_data _ _ "Failed after ".data " attempts".data
        (by simp [String.data_append])
    · simp only [retryFinalError, hts, Exc.message]
      by_cases ht : t != ""
      · rw [if_pos ht]
        exact pyContains_of_data _ _ "Failed after ".data
          (" attempts".data ++ " for ticker ".data ++ t.data)
          (by simp [String.data_append])
      · rw [if_neg ht]
        exact pyContains_of_data _ _ "Failed after ".data " attempts".data
          (by simp [String.data_append])
  · intro t hts ht
    simp only [retryFinalError, hts, Exc.message]
    rw [if_pos (by simpa using ht)]
    exact pyContains_of_data _ _
      ("Failed after ".data ++ (toString cfg.retry_attempts).data
        ++ " attempts".data ++ " for ticker ".data) []
      (by simp [String.data_append])

/-- Witness for C3 with `retry_attempts = 3`, `base_delay = 1`,
`max_delay = 60`, ticker `"AAPL"`, and an operation that always times out:
three invocations, sleeps `[1, 2]` (total 3 seconds), and the final error
wraps the timeout and names the attempt count and ticker. -/
theorem with_retry_exhaustion_witness :
    with_retry (α := Unit) ⟨3, 1, 60, "yahoo_finance", some "AAPL"⟩
      (fun _ => .raise (.otherExc "TimeoutError" "timed out")) =
      (.raised (.providerError "Failed after 3 attempts for ticker AAPL"
          "yahoo_finance" (some "AAPL")
          (some (.otherExc "TimeoutError" "timed out"))),
       [1, 2], 3) ∧
    ([(1 : ℚ), 2].sum = 3) := by
  constructor
  · have h := (with_retry_exhaustion (α := Unit)
      ⟨3, 1, 60, "yahoo_finance", some "AAPL"⟩
      (fun _ => .raise (.otherExc "TimeoutError" "timed out"))
      (.otherExc "TimeoutError" "timed out")
      (by decide)
      (by intro j h1 h2; rfl)
      rfl).1
    rw [h]
    simp only [Prod.mk.injEq]
    refine ⟨?_, ?_, trivial⟩
    · rfl
    · show List.map (fun i => min ((1 : ℚ) * 2 ^ i) 60) (List.range 2) = [1, 2]
      rw [show List.range 2 = [0, 1] from rfl]
      simp only [List.map_cons, List.map_nil]
      norm_num
  · norm_num

/-! ## Stable sorting (model of Python `sorted` / `list.sort`) -/

/-- Insert `a` in front of the first element not below it (stable). -/
def pyInsert {α : Type} (le : α → α → Bool) (a : α) : List α → List α
  | [] => [a]
  | b :: l => if le a b then a :: b :: l else b :: pyInsert le a l

/-- Stable insertion sort; extensionally equal (output and tie order) to
Python's stable `sorted`/`list.sort` for a total preorder comparator. -/
def pySort {α : Type} (le : α → α → Bool) : List α → List α
  | [] => []
  | a :: l => pyInsert le a (pySort le l)

theorem mem_pyInsert {α : Type} (le : α → α → Bool) (a x : α) :
    ∀ l : List α, x ∈ pyInsert le a l ↔ x = a ∨ x ∈ l := by
  intro l
  induction l with
  | nil => simp [pyInsert]
  | cons b l ih =>
      rw [pyInsert]
      by_cases h : le a b
      · simp [h]
      · rw [if_neg h]
        simp only [List.mem_cons, ih]
        tauto

theorem mem_pySort {α : Type} (le : α → α → Bool) (x : α) :
    ∀ l : List α, x ∈ pySort le l ↔ x ∈ l := by
  intro l
  induction l with
  | nil => simp [pySort]
  | cons a l ih =>
      rw [pySort, mem_pyInsert]
      simp only [List.mem_cons, ih]

theorem pyInsert_sorted {α : Type} (le : α → α → Bool)
    (htot : ∀ a b, le a b = true ∨ le b a = true)
    (htrans : ∀ a b c, le a b = true → le b c = true → le a c = true) (a : α) :
    ∀ l : List α, List.Pairwise (fun x y => le x y = true) l →
      List.Pairwise (fun x y => le x y = true) (pyInsert le a l) := by
  intro l
  induction l with
  | nil => intro _; simp [pyInsert]
  | cons b l ih =>
      intro hs
      obtain ⟨hb, hl⟩ := List.pairwise_cons.mp hs
      rw [pyInsert]
      by_cases h : le a b
      · rw [if_pos h]
        refine List.pairwise_cons.mpr ⟨?_, hs⟩
        intro y hy
        rcases List.mem_cons.mp hy with rfl | hy
        · exact h
        · exact htrans a b y h (hb y hy)
      · rw [if_neg h]
        refine List.pairwise_cons.mpr ⟨?_, ih hl⟩
        intro y hy
        rcases (mem_pyInsert le a y l).mp hy with heq | hy
        · rw [heq]
          rcases htot a b with h1 | h1
          · exact absurd h1 h
          · exact h1
        · exact hb y hy

theorem pySort_sorted {α : Type} (le : α → α → Bool)
    (htot : ∀ a b, le a b = true ∨ le b a = true)
    (htrans : ∀ a b c, le a b = true → le b c = true → le a c = true) :
    ∀ l : List α, List.Pairwise (fun x y => le x y = true) (pySort le l) := by
  intro l
  induction l with
  | nil => simp [pySort]
  | cons a l ih => exact pyInsert_sorted le htot htrans a (pySort le l) ih

/-! ## ProviderRegistry (apps/api/app/providers/registry.py) -/

/-- The `ProviderType` literal: "company" | "fundamentals" | "price". -/
inductive ProviderType where
  | company
  | fundamentals
  | price
deriving Repr, DecidableEq

/-- How a `ProviderType` value renders inside an f-string. -/
def ProviderType.toStr : ProviderType → String
  | .company => "company"
  | .fundamentals => "fundamentals"
  | .price => "price"

/-- Lexicographic (code-point) comparison of character lists, the order
Python uses to compare strings. -/
def charsLe : List Char → List Char → Bool
  | [], _ => true
  | _ :: _, [] => false
  | a :: as, b :: bs => if a < b then true else if b < a then false else charsLe as bs

/-- Python `str` `<=` (code-point lexicographic). -/
def pyStrLe (a b : String) : Bool :=
  charsLe a.data b.data

/-- Python `", ".join(parts)`. -/
def pyJoin (sep : String) : List String → String
  | [] => ""
  | [x] => x
  | x :: y :: rest => x ++ sep ++ pyJoin sep (y :: rest)

/-- The registry state: the `self._providers` dict from `(type, name)` keys
to provider classes, in insertion order; the class itself is abstract
(type parameter `κ`). -/
structure ProviderRegistry (κ : Type) where
  providers : List ((ProviderType × String) × κ)

/-- Dict lookup `self._providers[key]` / membership `key in self._providers`. -/
def ProviderRegistry.lookup {κ : Type} (reg : ProviderRegistry κ)
    (provider_type : ProviderType) (name : String) : Option κ :=
  (reg.providers.find? (fun e =>
    decide (e.1.1 = provider_type ∧ e.1.2 = name))).map (·.2)

/-- `ProviderRegistry.list_providers`: the names registered under the type,
sorted ascending (Python `sorted`). -/
def ProviderRegistry.list_providers {κ : Type} (reg : ProviderRegistry κ)
    (provider_type : ProviderType) : List String :=
  let provider_names := reg.providers.filterMap
    (fun e => if e.1.1 = provider_type then some e.1.2 else none)
  pySort pyStrLe provider_names

/-- The `KeyError` text raised by `get_provider` for an unregistered pair:
`"No provider registered for type '{t}' with name '{n}'. Available
providers: {available_str}"`, where `available_str` is the comma-joined
quoted name list, or `"none"` when empty. -/
def registryMissingMsg {κ : Type} (reg : ProviderRegistry κ)
    (provider_type : ProviderType) (name : String) : String :=
  let available := reg.list_providers provider_type
  let available_str :=
    if available.isEmpty then "none"
    else pyJoin ", " (available.map (fun p => "'" ++ p ++ "'"))
  "No provider registered for type '" ++ provider_type.toStr ++ "' with name '"
    ++ name ++ "'. Available providers: " ++ available_str

/-- `ProviderRegistry.get_provider`: raise `KeyError` with the enumerating
message for an unregistered pair, otherwise instantiate the registered
class (`provider_class()`, modelled by returning the registered value). -/
def ProviderRegistry.get_provider {κ : Type} (reg : ProviderRegistry κ)
    (provider_type : ProviderType) (name : String) : Except String κ :=
  match reg.lookup provider_type name with
  | none => .error (registryMissingMsg reg provider_type name)
  | some provider_class => .ok provider_class

/-- Every element of a list appears contiguously in its comma-join. -/
theorem pyJoin_mem_decomp (sep : String) :
    ∀ (l : List String) (p : String), p ∈ l →
      ∃ pre post, (pyJoin sep l).data = pre ++ p.data ++ post := by
  intro l
  induction l with
  | nil => intro p hp; simp at hp
  | cons x rest ih =>
      intro p hp
      cases rest with
      | nil =>
          have : p = x := by simpa using hp
          subst this
          exact ⟨[], [], by simp [pyJoin]⟩
      | cons y rest' =>
          rcases List.mem_cons.mp hp with heq | hmem
          · subst heq
            refine ⟨[], (sep.data ++ (pyJoin sep (y :: rest')).data), ?_⟩
            simp [pyJoin, String.data_append]
          · obtain ⟨pre, post, hdec⟩ := ih p hmem
            refine ⟨x.data ++ sep.data ++ pre, post, ?_⟩
            simp [pyJoin, String.data_append, hdec]

/-- C8: for every registry state and unregistered `(type, name)` pair,
`get_provider` raises (returns an error, never a value), and the error text
contains every name currently registered under the type, quoted — or the
word "none" when no names are registered. -/
theorem get_provider_unregistered {κ : Type} (reg : ProviderRegistry κ)
    (provider_type : ProviderType) (name : String)
    (h : reg.lookup provider_type name = none) :
    reg.get_provider provider_type name =
      .error (registryMissingMsg reg provider_type name) ∧
    (∀ c, reg.get_provider provider_type name ≠ .ok c) ∧
    (reg.list_providers provider_type = [] →
      pyContains (registryMissingMsg reg provider_type name) "none" = true) ∧
    (∀ p, p ∈ reg.list_providers provider_type →
      pyContains (registryMissingMsg reg provider_type name)
        ("'" ++ p ++ "'") = true) := by
  refine ⟨?_, ?_, ?_, ?_⟩
  · rw [ProviderRegistry.get_provider, h]
  · intro c hc
    rw [ProviderRegistry.get_provider, h] at hc
    exact Except.noConfusion hc
  · intro hempty
    rw [registryMissingMsg]
    rw [hempty]
    exact pyContains_of_data _ _
      ("No provider registered for type '".data ++ provider_type.toStr.data
        ++ "' with name '".data ++ name.data
        ++ "'. Available providers: ".data) []
      (by simp [String.data_append])
  · intro p hp
    rw [registryMissingMsg]
    have hne : (reg.list_providers provider_type).isEmpty = false := by
      cases hl : reg.list_providers provider_type with
      | nil => rw [hl] at hp; simp at hp
      | cons a l => rfl
    rw [if_neg (by simp [hne])]
    obtain ⟨pre, post, hdec⟩ := pyJoin_mem_decomp ", "
      ((reg.list_providers provider_type).map (fun q => "'" ++ q ++ "'"))
      ("'" ++ p ++ "'") (List.mem_map_of_mem _ hp)
    exact pyContains_of_data _ _
      ("No provider registered for type '".data ++ provider_type.toStr.data
        ++ "' with name '".data ++ name.data
        ++ "'. Available providers: ".data ++ pre) post
      (by simp [String.data_append, hdec])

/-- Witness for C8 on a registry holding fundamentals providers "yahoo" and
"alt": requesting the unregistered name "fmp" errors, and the error text
quotes both registered names. -/
theorem get_provider_unregistered_witness :
    (ProviderRegistry.lookup (κ := Unit)
      ⟨[((.fundamentals, "yahoo"), ()), ((.fundamentals, "alt"), ())]⟩
      .fundamentals "fmp" = none) ∧
    pyContains (registryMissingMsg (κ := Unit)
      ⟨[((.fundamentals, "yahoo"), ()), ((.fundamentals, "alt"), ())]⟩
      .fundamentals "fmp") ("'" ++ "yahoo" ++ "'") = true :=
  ⟨rfl,
   (get_provider_unregistered (κ := Unit)
      ⟨[((.fundamentals, "yahoo"), ()), ((.fundamentals, "alt"), ())]⟩
      .fundamentals "fmp" rfl).2.2.2 "yahoo" (by decide)⟩

/-! ## Yahoo yfinance adapter (apps/api/app/providers/yahoo_yfinance.py) -/

/-- A Python value inside a provider payload dictionary. -/
inductive Val where
  | vstr (s : String)
  | vnum (q : ℚ)
  | vbool (b : Bool)
  | vnone
deriving Repr, DecidableEq

/-- Python truthiness of a payload value. -/
def Val.truthy : Val → Bool
  | .vstr s => s != ""
  | .vnum q => q != 0
  | .vbool b => b
  | .vnone => false

/-- `info.get(key)`: the value stored under `key`, or `None` when absent. -/
def pyGet (info : List (String × Val)) (key : String) : Val :=
  ((info.find? (fun e => e.1 == key)).map (·.2)).getD Val.vnone

/-- Python `a or b` on payload values. -/
def pyOr (a b : Val) : Val :=
  if a.truthy then a else b

/-- `str.upper()` on a single character (ASCII; tickers are ASCII). -/
def pyUpperChar (c : Char) : Char :=
  if 'a' ≤ c ∧ c ≤ 'z' then Char.ofNat (c.toNat - 32) else c

/-- `str.upper()` (ASCII). -/
def pyUpper (s : String) : String :=
  ⟨s.data.map pyUpperChar⟩

/-- `CompanyProfileDTO` (app/domain/provider_contracts.py).  Raw payload
values are carried as `Val`; pydantic type validation is not modelled (the
claims under verification do not depend on it). -/
structure CompanyProfileDTO where
  ticker : String
  name : Val
  legal_name : Val
  sector : Val
  industry : Val
  country : Val
  currency : Val
  market_cap : Val
  exchange : Val
deriving Repr, DecidableEq

/-- `YahooYFinanceProvider._normalize_company_profile`: pick the name via
`info.get('longName') or info.get('shortName')`; a falsy name means the
ticker is treated as invalid and the whole profile is `None`; every other
field degrades to `None` when absent. -/
def _normalize_company_profile (ticker : String) (info : List (String × Val)) :
    Option CompanyProfileDTO :=
  let name := pyOr (pyGet info "longName") (pyGet info "shortName")
  if !name.truthy then none
  else some {
    ticker := pyUpper ticker,
    name := name,
    legal_name := pyGet info "longName",
    sector := pyGet info "sector",
    industry := pyGet info "industry",
    country := pyGet info "country",
    currency := pyOr (pyGet info "currency") (pyGet info "financialCurrency"),
    market_cap := pyGet info "marketCap",
    exchange := pyGet info "exchange" }

/-- C6: a payload with no name field (neither `longName` nor `shortName`
present) normalizes to `None` for the whole profile, without raising; when
a profile is returned, its `sector` is exactly `info.get('sector')`, so a
missing sector yields `profile.sector == None` rather than an error. -/
theorem normalize_company_profile_spec (ticker : String)
    (info : List (String × Val)) :
    (pyGet info "longName" = Val.vnone → pyGet info "shortName" = Val.vnone →
      _normalize_company_profile ticker info = none) ∧
    (∀ p, _normalize_company_profile ticker info = some p →
      p.sector = pyGet info "sector" ∧
      (pyGet info "sector" = Val.vnone → p.sector = Val.vnone)) := by
  constructor
  · intro hl hs
    simp only [_normalize_company_profile, hl, hs]
    rfl
  · intro p hp
    simp only [_normalize_company_profile] at hp
    split_ifs at hp with hcond
    all_goals
      first
      | exact Option.noConfusion hp
      | (have hrec := Option.some.inj hp
         subst hrec
         exact ⟨rfl, fun h => h⟩)

/-- Witness for C6: a payload with only a sector normalizes to `None`; a
payload with only a `longName` yields a profile whose sector is `None`. -/
theorem normalize_company_profile_spec_witness :
    _normalize_company_profile "aapl" [("sector", Val.vstr "Technology")] = none ∧
    (CompanyProfileDTO.mk "AAPL" (Val.vstr "Apple Inc.") (Val.vstr "Apple Inc.")
      Val.vnone Val.vnone Val.vnone Val.vnone Val.vnone Val.vnone).sector =
      Val.vnone :=
  ⟨(normalize_company_profile_spec "aapl"
      [("sector", Val.vstr "Technology")]).1 rfl rfl,
   ((normalize_company_profile_spec "aapl"
      [("longName", Val.vstr "Apple Inc.")]).2
      (CompanyProfileDTO.mk "AAPL" (Val.vstr "Apple Inc.") (Val.vstr "Apple Inc.")
        Val.vnone Val.vnone Val.vnone Val.vnone Val.vnone Val.vnone) rfl).2 rfl⟩

/-! ### Batch helpers (fetch_batch_company_profiles,
fetch_batch_financial_statements) -/

/-- `fetch_batch_company_profiles`: iterate the tickers in list order; each
per-ticker fetch either returns a value (`.ok`) or raises (`.error`); a
raise is caught and recorded as `None`, and iteration continues.  The
result is the ordered sequence of `results[ticker] = ...` assignments. -/
def fetch_batch_company_profiles {π : Type}
    (fetch : String → Except Exc (Option π)) :
    List String → List (String × Option π)
  | [] => []
  | ticker :: rest =>
      match fetch ticker with
      | .ok profile => (ticker, profile) :: fetch_batch_company_profiles fetch rest
      | .error _ => (ticker, none) :: fetch_batch_company_profiles fetch rest

/-- `fetch_batch_financial_statements`: same shape, with an empty list
recorded for a ticker whose fetch raises. -/
def fetch_batch_financial_statements {σ : Type}
    (fetch : String → Except Exc (List σ)) :
    List String → List (String × List σ)
  | [] => []
  | ticker :: rest =>
      match fetch ticker with
      | .ok statements =>
          (ticker, statements) :: fetch_batch_financial_statements fetch rest
      | .error _ => (ticker, []) :: fetch_batch_financial_statements fetch rest

/-- C4: a batch fetch processes the tickers sequentially in list order,
performs the per-ticker fetch for every input ticker (no early abort), never
propagates a per-ticker raise, and returns an entry for every input ticker
in which a raising ticker maps to `None` (profiles) or `[]` (statements)
and a successful ticker maps to its fetched result. -/
theorem batch_fetch_spec {π σ : Type}
    (fetch_profile : String → Except Exc (Option π))
    (fetch_statements : String → Except Exc (List σ)) (tickers : List String) :
    fetch_batch_company_profiles fetch_profile tickers =
      tickers.map (fun t => (t, match fetch_profile t with
        | .ok p => p
        | .error _ => none)) ∧
    fetch_batch_financial_statements fetch_statements tickers =
      tickers.map (fun t => (t, match fetch_statements t with
        | .ok s => s
        | .error _ => ([] : List σ))) ∧
    (fetch_batch_company_profiles fetch_profile tickers).map Prod.fst = tickers ∧
    (fetch_batch_financial_statements fetch_statements tickers).map Prod.fst =
      tickers := by
  have h1 : fetch_batch_company_profiles fetch_profile tickers =
      tickers.map (fun t => (t, match fetch_profile t with
        | .ok p => p
        | .error _ => none)) := by
    induction tickers with
    | nil => rfl
    | cons t rest ih =>
        rw [fetch_batch_company_profiles]
        cases hf : fetch_profile t <;> simp [hf, ih]
  have h2 : fetch_batch_financial_statements fetch_statements tickers =
      tickers.map (fun t => (t, match fetch_statements t with
        | .ok s => s
        | .error _ => ([] : List σ))) := by
    clear h1
    induction tickers with
    | nil => rfl
    | cons t rest ih =>
        rw [fetch_batch_financial_statements]
        cases hf : fetch_statements t <;> simp [hf, ih]
  refine ⟨h1, h2, ?_, ?_⟩
  · rw [h1, List.map_map]
    have hid : (Prod.fst ∘ fun t => ((t, match fetch_profile t with
        | .ok p => p
        | .error _ => none) : String × Option π)) = fun t => t := rfl
    rw [hid]
    simp
  · rw [h2, List.map_map]
    have hid : (Prod.fst ∘ fun t => ((t, match fetch_statements t with
        | .ok s => s
        | .error _ => ([] : List σ)) : String × List σ)) = fun t => t := rfl
    rw [hid]
    simp

/-! ### SnapshotRecorder (`_log_raw_snapshot` and
app/models/provider.py, ProviderRawSnapshot) -/

/-- The `ProviderRawSnapshot` record (app/models/provider.py): provider
name, entity type/key, fetch timestamp, opaque payload, optional HTTP
status and ingestion-run id.  `snapshot_id` is an `Option`: its
`str(uuid4())` is a SQLAlchemy *column default*, evaluated only when the
INSERT is flushed — the constructor leaves it `None`. -/
structure ProviderRawSnapshot where
  snapshot_id : Option String
  provider_name : String
  provider_entity_type : String
  provider_entity_key : String
  fetched_at : ℚ
  payload_json : List (String × Val)
  http_status : Option ℤ
  ingestion_run_id : Option String
deriving Repr, DecidableEq

/-- What happened on the persistence side of `_log_raw_snapshot`. -/
inductive PersistOutcome where
  | notConfigured
  | committed
  | rolledBack (errMsg : String)
deriving Repr, DecidableEq

/-- `YahooYFinanceProvider._log_raw_snapshot`: always construct the
snapshot (with the current timestamp `now`; the identifier stays `None`
at construction, since the uuid column default runs only at flush); if a
database session is attached, try `add`/`commit` — a successful flush
populates `snapshot_id` with the freshly generated uuid `fresh_id`, while
a raise is caught, logged and answered with `rollback` — and in every
case return the snapshot.  The session is modelled by its fallible commit
action. -/
def _log_raw_snapshot (provider_name : String) (fresh_id : String) (now : ℚ)
    (db_session : Option (ProviderRawSnapshot → Except String Unit))
    (entity_type : String) (entity_key : String)
    (payload : List (String × Val)) (http_status : Option ℤ)
    (ingestion_run_id : Option String) : ProviderRawSnapshot × PersistOutcome :=
  let snapshot : ProviderRawSnapshot :=
    { snapshot_id := none,
      provider_name := provider_name,
      provider_entity_type := entity_type,
      provider_entity_key := entity_key,
      fetched_at := now,
      payload_json := payload,
      http_status := http_status,
      ingestion_run_id := ingestion_run_id }
  match db_session with
  | some commit =>
      match commit snapshot with
      | .ok _ => ({ snapshot with snapshot_id := some fresh_id }, .committed)
      | .error e => (snapshot, .rolledBack e)
  | none => (snapshot, .notConfigured)

/-- C7 counterexample: with no durable sink attached, the returned
snapshot's identifier is `None` — `snapshot_id` is a SQLAlchemy column
default evaluated only at flush, so no "newly generated identifier" is
carried by the snapshot, contrary to the claim's
"with a newly generated identifier ... whether or not a durable sink is
attached". -/
theorem log_raw_snapshot_id_counterexample :
    (_log_raw_snapshot "yahoo_finance" "id-1" 0 none "company_profile"
      "AAPL" [] none none).1.snapshot_id = none ∧
    (none : Option String) ≠ some "id-1" :=
  ⟨rfl, by decide⟩

/-- C7 (amended): the snapshot recorder always constructs and returns a
snapshot carrying the current timestamp and the given entity fields,
whether or not a durable sink is attached; the newly generated identifier
is populated only by a successful flush — with no sink attached the
returned snapshot's identifier is `None` — and when the attached sink's
commit raises, the failure is answered by a rollback and the call still
returns the (unflushed) snapshot: no exception propagates to the calling
fetch. -/
theorem log_raw_snapshot_spec (provider_name fresh_id : String) (now : ℚ)
    (db_session : Option (ProviderRawSnapshot → Except String Unit))
    (entity_type entity_key : String) (payload : List (String × Val))
    (http_status : Option ℤ) (ingestion_run_id : Option String) :
    ((_log_raw_snapshot provider_name fresh_id now db_session entity_type
        entity_key payload http_status ingestion_run_id).1.fetched_at = now ∧
     (_log_raw_snapshot provider_name fresh_id now db_session entity_type
        entity_key payload http_status ingestion_run_id).1.provider_name =
        provider_name ∧
     (_log_raw_snapshot provider_name fresh_id now db_session entity_type
        entity_key payload http_status ingestion_run_id).1.provider_entity_type =
        entity_type ∧
     (_log_raw_snapshot provider_name fresh_id now db_session entity_type
        entity_key payload http_status ingestion_run_id).1.provider_entity_key =
        entity_key ∧
     (_log_raw_snapshot provider_name fresh_id now db_session entity_type
        entity_key payload http_status ingestion_run_id).1.payload_json =
        payload) ∧
    (_log_raw_snapshot provider_name fresh_id now none entity_type
        entity_key payload http_status ingestion_run_id).1.snapshot_id =
      none ∧
    (∀ commit, db_session = some commit →
      commit (_log_raw_snapshot provider_name fresh_id now none entity_type
        entity_key payload http_status ingestion_run_id).1 = .ok () →
      _log_raw_snapshot provider_name fresh_id now db_session entity_type
        entity_key payload http_status ingestion_run_id =
        ({ (_log_raw_snapshot provider_name fresh_id now none entity_type
            entity_key payload http_status ingestion_run_id).1 with
            snapshot_id := some fresh_id },
         .committed)) ∧
    (∀ commit msg, db_session = some commit →
      commit (_log_raw_snapshot provider_name fresh_id now none entity_type
        entity_key payload http_status ingestion_run_id).1 = .error msg →
      _log_raw_snapshot provider_name fresh_id now db_session entity_type
        entity_key payload http_status ingestion_run_id =
        ((_log_raw_snapshot provider_name fresh_id now none entity_type
          entity_key payload http_status ingestion_run_id).1,
         .rolledBack msg)) := by
  refine ⟨?_, rfl, ?_, ?_⟩
  · cases db_session with
    | none => exact ⟨rfl, rfl, rfl, rfl, rfl⟩
    | some commit =>
        rw [_log_raw_snapshot]
        cases hc : commit {
            snapshot_id := none,
            provider_name := provider_name,
            provider_entity_type := entity_type,
            provider_entity_key := entity_key,
            fetched_at := now,
            payload_json := payload,
            http_status := http_status,
            ingestion_run_id := ingestion_run_id } <;>
          exact ⟨rfl, rfl, rfl, rfl, rfl⟩
  · intro commit hsess hok
    subst hsess
    rw [_log_raw_snapshot]
    have : commit {
        snapshot_id := none,
        provider_name := provider_name,
        provider_entity_type := entity_type,
        provider_entity_key := entity_key,
        fetched_at := now,
        payload_json := payload,
        http_status := http_status,
        ingestion_run_id := ingestion_run_id } = .ok () := hok
    rw [this]
    rfl
  · intro commit msg hsess hfail
    subst hsess
    rw [_log_raw_snapshot]
    have : commit {
        snapshot_id := none,
        provider_name := provider_name,
        provider_entity_type := entity_type,
        provider_entity_key := entity_key,
        fetched_at := now,
        payload_json := payload,
        http_status := http_status,
        ingestion_run_id := ingestion_run_id } = .error msg := hfail
    rw [this]
    rfl

/-- Witness for C7: a sink whose commit always fails still gets back the
constructed snapshot (identifier `None`), with the failure converted to a
rollback; a sink whose commit succeeds gets back the snapshot with the
freshly generated identifier populated. -/
theorem log_raw_snapshot_spec_witness :
    _log_raw_snapshot "yahoo_finance" "id-1" 0
      (some (fun _ => .error "db down")) "company_profile" "AAPL" [] none none =
      (ProviderRawSnapshot.mk none "yahoo_finance" "company_profile" "AAPL"
        0 [] none none, .rolledBack "db down") ∧
    _log_raw_snapshot "yahoo_finance" "id-1" 0
      (some (fun _ => .ok ())) "company_profile" "AAPL" [] none none =
      (ProviderRawSnapshot.mk (some "id-1") "yahoo_finance" "company_profile"
        "AAPL" 0 [] none none, .committed) :=
  ⟨(log_raw_snapshot_spec "yahoo_finance" "id-1" 0
      (some (fun _ => .error "db down")) "company_profile" "AAPL" [] none
      none).2.2.2 (fun _ => .error "db down") "db down" rfl rfl,
   (log_raw_snapshot_spec "yahoo_finance" "id-1" 0
      (some (fun _ => .ok ())) "company_profile" "AAPL" [] none
      none).2.2.1 (fun _ => .ok ()) rfl rfl⟩

/-! ### Financial statements (_normalize_financial_statements,
_get_financial_field) -/

/-- A `datetime.date` (fiscal-period end or trading day). -/
structure PyDate where
  year : ℤ
  month : ℕ
  day : ℕ
deriving Repr, DecidableEq

/-- A yfinance statement DataFrame: fiscal-period-end columns, field-name
row index, and the `df.loc[field, date]` cells (`none` models a missing or
NaN value, which `_get_financial_field` converts to `None`). -/
structure FinDF where
  columns : List PyDate
  index : List String
  cell : String → PyDate → Option ℚ

/-- `df.empty`: a DataFrame with an empty axis. -/
def FinDF.isEmpty (df : FinDF) : Bool :=
  df.columns.isEmpty || df.index.isEmpty

/-- `df is None or df.empty`. -/
def dfNoneOrEmpty (df : Option FinDF) : Bool :=
  match df with
  | none => true
  | some df => df.isEmpty

/-- The `field_alternatives` table of `_get_financial_field`; `.get(_, [])`
yields `[]` for any other field name. -/
def field_alternatives : String → List String
  | "Total Revenue" => ["Total Revenue", "Revenue"]
  | "Gross Profit" => ["Gross Profit"]
  | "Operating Income" => ["Operating Income", "EBIT"]
  | "Net Income" => ["Net Income", "Net Income Common Stockholders"]
  | "Diluted EPS" => ["Diluted EPS", "Basic EPS"]
  | "Total Assets" => ["Total Assets"]
  | "Total Liabilities Net Minority Interest" =>
      ["Total Liabilities Net Minority Interest", "Total Liabilities"]
  | "Stockholders Equity" =>
      ["Stockholders Equity", "Total Equity Gross Minority Interest",
       "Common Stock Equity"]
  | "Current Assets" => ["Current Assets"]
  | "Current Liabilities" => ["Current Liabilities"]
  | "Long Term Debt" =>
      ["Long Term Debt", "Long Term Debt And Capital Lease Obligation"]
  | "Operating Cash Flow" =>
      ["Operating Cash Flow", "Total Cash From Operating Activities"]
  | "Capital Expenditure" => ["Capital Expenditure", "Capital Expenditures"]
  | "Free Cash Flow" => ["Free Cash Flow"]
  | _ => []

/-- The alternatives loop: return the first alternative present in the row
index (even if its cell is NaN), else `None`. -/
def firstAlt (df : FinDF) (fiscal_date : PyDate) : List String → Option ℚ
  | [] => none
  | alt :: rest =>
      if alt ∈ df.index then df.cell alt fiscal_date
      else firstAlt df fiscal_date rest

/-- `YahooYFinanceProvider._get_financial_field`: `None` for a missing or
empty frame or absent column; exact row match first, then the alternatives
table. -/
def _get_financial_field (df : Option FinDF) (fiscal_date : PyDate)
    (field_name : String) : Option ℚ :=
  match df with
  | none => none
  | some df =>
      if df.isEmpty then none
      else if fiscal_date ∈ df.columns then
        if field_name ∈ df.index then df.cell field_name fiscal_date
        else firstAlt df fiscal_date (field_alternatives field_name)
      else none

/-- `FinancialStatementDTO` (app/domain/provider_contracts.py). -/
structure FinancialStatementDTO where
  ticker : String
  fiscal_year : ℤ
  fiscal_year_end : PyDate
  revenue : Option ℚ
  gross_profit : Option ℚ
  operating_income : Option ℚ
  net_income : Option ℚ
  eps_diluted : Option ℚ
  total_assets : Option ℚ
  total_liabilities : Option ℚ
  shareholders_equity : Option ℚ
  current_assets : Option ℚ
  current_liabilities : Option ℚ
  long_term_debt : Option ℚ
  operating_cash_flow : Option ℚ
  capital_expenditure : Option ℚ
  free_cash_flow : Option ℚ
deriving Repr, DecidableEq

/-- The columns contributed to the `fiscal_dates` set by one frame
(only when the frame is present and non-empty). -/
def colsOf (df : Option FinDF) : List PyDate :=
  match df with
  | none => []
  | some df => if df.isEmpty then [] else df.columns

/-- `set.add`: append if not seen. -/
def setInsert (acc : List PyDate) (d : PyDate) : List PyDate :=
  if d ∈ acc then acc else acc ++ [d]

/-- `set.update`: fold the additions.  (CPython iterates a `set` in an
unspecified hash order; this model fixes insertion order.  The final
statement list is sorted by fiscal year, so only the order of same-year
ties can differ, which no verified property depends on.) -/
def setUpdate (acc : List PyDate) (ds : List PyDate) : List PyDate :=
  ds.foldl setInsert acc

/-- `if start_year and fiscal_year < start_year: continue` — note the
Python truthiness: `start_year = 0` disables the bound. -/
def yearDropLow (start_year : Option ℤ) (fiscal_year : ℤ) : Bool :=
  match start_year with
  | none => false
  | some s => decide (s ≠ 0) && decide (fiscal_year < s)

/-- `if end_year and fiscal_year > end_year: continue` — same truthiness:
`end_year = 0` disables the bound. -/
def yearDropHigh (end_year : Option ℤ) (fiscal_year : ℤ) : Bool :=
  match end_year with
  | none => false
  | some e => decide (e ≠ 0) && decide (fiscal_year > e)

/-- The `FinancialStatementDTO(...)` construction for one fiscal year,
pulling each canonical field from its statement frame. -/
def finStatementFor (ticker : String) (income balance cashflow : Option FinDF)
    (fiscal_date : PyDate) : FinancialStatementDTO :=
  { ticker := pyUpper ticker,
    fiscal_year := fiscal_date.year,
    fiscal_year_end := fiscal_date,
    revenue := _get_financial_field income fiscal_date "Total Revenue",
    gross_profit := _get_financial_field income fiscal_date "Gross Profit",
    operating_income := _get_financial_field income fiscal_date "Operating Income",
    net_income := _get_financial_field income fiscal_date "Net Income",
    eps_diluted := _get_financial_field income fiscal_date "Diluted EPS",
    total_assets := _get_financial_field balance fiscal_date "Total Assets",
    total_liabilities := _get_financial_field balance fiscal_date
      "Total Liabilities Net Minority Interest",
    shareholders_equity := _get_financial_field balance fiscal_date
      "Stockholders Equity",
    current_assets := _get_financial_field balance fiscal_date "Current Assets",
    current_liabilities := _get_financial_field balance fiscal_date
      "Current Liabilities",
    long_term_debt := _get_financial_field balance fiscal_date "Long Term Debt",
    operating_cash_flow := _get_financial_field cashflow fiscal_date
      "Operating Cash Flow",
    capital_expenditure := _get_financial_field cashflow fiscal_date
      "Capital Expenditure",
    free_cash_flow := _get_financial_field cashflow fiscal_date "Free Cash Flow" }

/-- `YahooYFinanceProvider._normalize_financial_statements`: empty input →
empty output; union the fiscal dates of the three frames; filter by the
optional year bounds (with Python truthiness); build one DTO per surviving
year; sort by fiscal year descending (stable, `reverse=True`). -/
def _normalize_financial_statements (ticker : String)
    (income balance cashflow : Option FinDF)
    (start_year end_year : Option ℤ) : List FinancialStatementDTO :=
  if dfNoneOrEmpty income && dfNoneOrEmpty balance && dfNoneOrEmpty cashflow
  then []
  else
    let fiscal_dates := setUpdate (setUpdate (setUpdate [] (colsOf income))
      (colsOf balance)) (colsOf cashflow)
    if fiscal_dates.isEmpty then []
    else
      let statements := fiscal_dates.filterMap (fun fiscal_date =>
        if yearDropLow start_year fiscal_date.year then none
        else if yearDropHigh end_year fiscal_date.year then none
        else some (finStatementFor ticker income balance cashflow fiscal_date))
      pySort (fun a b => decide (b.fiscal_year ≤ a.fiscal_year)) statements

/-- C5 (amended): statements come back ordered by fiscal year descending;
when all three raw tables are absent or empty the result is `[]`, not an
error; and a year bound drops every fiscal year outside it **provided the
bound is nonzero** — a bound of 0 is falsy in Python and disables the
filter. -/
theorem normalize_financial_statements_spec (ticker : String)
    (income balance cashflow : Option FinDF) (start_year end_year : Option ℤ) :
    (dfNoneOrEmpty income = true → dfNoneOrEmpty balance = true →
      dfNoneOrEmpty cashflow = true →
      _normalize_financial_statements ticker income balance cashflow
        start_year end_year = []) ∧
    List.Pairwise (fun a b => b.fiscal_year ≤ a.fiscal_year)
      (_normalize_financial_statements ticker income balance cashflow
        start_year end_year) ∧
    (∀ dto, dto ∈ _normalize_financial_statements ticker income balance cashflow
        start_year end_year →
      (∀ s, start_year = some s → s ≠ 0 → s ≤ dto.fiscal_year) ∧
      (∀ e, end_year = some e → e ≠ 0 → dto.fiscal_year ≤ e)) := by
  refine ⟨?_, ?_, ?_⟩
  · intro h1 h2 h3
    rw [_normalize_financial_statements, if_pos (by rw [h1, h2, h3]; rfl)]
  · simp only [_normalize_financial_statements]
    split_ifs with h1 h2
    · exact List.Pairwise.nil
    · exact List.Pairwise.nil
    · have hsorted := pySort_sorted
        (fun a b : FinancialStatementDTO => decide (b.fiscal_year ≤ a.fiscal_year))
        (fun a b => by
          rcases le_total b.fiscal_year a.fiscal_year with h | h
          · exact Or.inl (decide_eq_true h)
          · exact Or.inr (decide_eq_true h))
        (fun a b c hab hbc => by
          have h1 := of_decide_eq_true hab
          have h2 := of_decide_eq_true hbc
          exact decide_eq_true (le_trans h2 h1))
      exact (hsorted _).imp (fun h => of_decide_eq_true h)
  · intro dto hdto
    simp only [_normalize_financial_statements] at hdto
    split_ifs at hdto with h1 h2
    · simp at hdto
    · simp at hdto
    · have hmem := (mem_pySort _ dto _).mp hdto
      obtain ⟨d, hd, hf⟩ := List.mem_filterMap.mp hmem
      split_ifs at hf with hlow hhigh
      · have hrec := Option.some.inj hf
        subst hrec
        constructor
        · intro s hs hsne
          rw [hs] at hlow
          have hlow' : yearDropLow (some s) d.year = false := by
            cases hb : yearDropLow (some s) d.year
            · rfl
            · exact absurd hb hlow
          simp only [yearDropLow] at hlow'
          rw [decide_eq_true hsne, Bool.true_and] at hlow'
          have hlt := of_decide_eq_false hlow'
          show s ≤ d.year
          omega
        · intro e he hene
          rw [he] at hhigh
          have hhigh' : yearDropHigh (some e) d.year = false := by
            cases hb : yearDropHigh (some e) d.year
            · rfl
            · exact absurd hb hhigh
          simp only [yearDropHigh] at hhigh'
          rw [decide_eq_true hene, Bool.true_and] at hhigh'
          have hlt := of_decide_eq_false hhigh'
          show d.year ≤ e
          omega

/-- A one-column income DataFrame (fiscal year end 2023-12-31) used to
refute the unconditional year-filter reading of C5. -/
def exIncomeDF : FinDF :=
  { columns := [⟨2023, 12, 31⟩],
    index := ["Total Revenue"],
    cell := fun f d =>
      if f = "Total Revenue" ∧ d = ⟨2023, 12, 31⟩ then some 100 else none }

/-- C5 counterexample: with `end_year = 0` **given**, the claim demands
dropping fiscal year 2023 (2023 lies outside the closed interval ending at
0), but the code's `if end_year and ...` treats the 0 bound as falsy and
keeps the 2023 statement. -/
theorem normalize_financial_statements_year_filter_counterexample :
    ((2023 : ℤ) > 0) ∧
    (_normalize_financial_statements "AAPL" (some exIncomeDF) none none
      none (some 0)).map (·.fiscal_year) = [2023] := by
  constructor
  · decide
  · decide

/-- A two-column income DataFrame (2023-12-31 and 2022-12-31) for the C5
example evaluations. -/
def exIncomeDF2 : FinDF :=
  { columns := [⟨2023, 12, 31⟩, ⟨2022, 12, 31⟩],
    index := ["Total Revenue"],
    cell := fun f d =>
      if f = "Total Revenue" then
        if d = ⟨2023, 12, 31⟩ then some 100
        else if d = ⟨2022, 12, 31⟩ then some 90
        else none
      else none }

/-- Witness for C5: all-empty input yields `[]` (by the theorem); raw
tables dated 2023-12-31 and 2022-12-31 give `[2023, 2022]` (newest first),
and filtering with `start_year = end_year = 2023` gives exactly the 2023
statement. -/
theorem normalize_financial_statements_spec_witness :
    _normalize_financial_statements "aapl" none none none none none = [] ∧
    (_normalize_financial_statements "aapl" (some exIncomeDF2) none none
      none none).map (·.fiscal_year) = [2023, 2022] ∧
    (_normalize_financial_statements "aapl" (some exIncomeDF2) none none
      (some 2023) (some 2023)).map (·.fiscal_year) = [2023] :=
  ⟨(normalize_financial_statements_spec "aapl" none none none none none).1
      rfl rfl rfl,
   by decide, by decide⟩

/-! ### Price history (_normalize_price_history) and C10 -/

/-- One row of the yfinance history DataFrame: the OHLCV cells (a `none`
models a column absent from the row or a `None` value). -/
structure PriceRow where
  Open : Option ℚ
  High : Option ℚ
  Low : Option ℚ
  Close : Option ℚ
  Volume : Option ℤ
  AdjClose : Option ℚ
deriving Repr, DecidableEq

/-- `PriceDataPointDTO` (app/domain/provider_contracts.py): `close` is the
one required numeric field. -/
structure PriceDataPointDTO where
  ticker : String
  date : PyDate
  open_ : Option ℚ
  high : Option ℚ
  low : Option ℚ
  close : ℚ
  volume : Option ℤ
  adjusted_close : Option ℚ
deriving Repr, DecidableEq

/-- `PriceHistoryDTO` (app/domain/provider_contracts.py). -/
structure PriceHistoryDTO where
  ticker : String
  start_date : PyDate
  end_date : PyDate
  data_points : List PriceDataPointDTO
deriving Repr, DecidableEq

/-- Date comparison (year, month, day lexicographic). -/
def dateLe (a b : PyDate) : Bool :=
  if a.year < b.year then true
  else if b.year < a.year then false
  else if a.month < b.month then true
  else if b.month < a.month then false
  else decide (a.day ≤ b.day)

/-- The per-row `PriceDataPointDTO(...)` construction: a row without a
`Close` value fails the DTO's required-field validation, which the per-row
`except` turns into skipping the row. -/
def priceRowToPoint (ticker : String) (r : PyDate × PriceRow) :
    Option PriceDataPointDTO :=
  match r.2.Close with
  | none => none
  | some c => some {
      ticker := pyUpper ticker,
      date := r.1,
      open_ := r.2.Open,
      high := r.2.High,
      low := r.2.Low,
      close := c,
      volume := r.2.Volume,
      adjusted_close := r.2.AdjClose }

/-- `YahooYFinanceProvider._normalize_price_history`: `None` for an absent
or empty frame; one `PriceDataPointDTO` per parseable row; sort ascending
by date; report the actual first/last dates of the data. -/
def _normalize_price_history (ticker : String)
    (history : List (PyDate × PriceRow)) : Option PriceHistoryDTO :=
  if history.isEmpty then none
  else
    let data_points := history.filterMap (priceRowToPoint ticker)
    if data_points.isEmpty then none
    else
      match pySort (fun a b => dateLe a.date b.date) data_points with
      | [] => none
      | dp :: rest => some {
          ticker := pyUpper ticker,
          start_date := dp.date,
          end_date := ((dp :: rest).getLast (List.cons_ne_nil dp rest)).date,
          data_points := dp :: rest }

/-- C10: every DTO the adapter produces carries the upper-cased input
ticker — the company profile, every financial statement, the price history
and every one of its data points. -/
theorem dto_tickers_uppercased (ticker : String) (info : List (String × Val))
    (income balance cashflow : Option FinDF) (start_year end_year : Option ℤ)
    (history : List (PyDate × PriceRow)) :
    (∀ p, _normalize_company_profile ticker info = some p →
      p.ticker = pyUpper ticker) ∧
    (∀ dto, dto ∈ _normalize_financial_statements ticker income balance
        cashflow start_year end_year → dto.ticker = pyUpper ticker) ∧
    (∀ ph, _normalize_price_history ticker history = some ph →
      ph.ticker = pyUpper ticker ∧
      ∀ dp, dp ∈ ph.data_points → dp.ticker = pyUpper ticker) := by
  refine ⟨?_, ?_, ?_⟩
  · intro p hp
    simp only [_normalize_company_profile] at hp
    split_ifs at hp with hcond
    all_goals
      first
      | exact Option.noConfusion hp
      | (have hrec := Option.some.inj hp
         subst hrec
         rfl)
  · intro dto hdto
    simp only [_normalize_financial_statements] at hdto
    split_ifs at hdto with h1 h2
    · simp at hdto
    · simp at hdto
    · have hmem := (mem_pySort _ dto _).mp hdto
      obtain ⟨d, hd, hf⟩ := List.mem_filterMap.mp hmem
      split_ifs at hf with hlow hhigh
      · have hrec := Option.some.inj hf
        subst hrec
        rfl
  · intro ph hp
    simp only [_normalize_price_history] at hp
    split_ifs at hp with h1 h2
    cases hs : pySort (fun a b => dateLe a.date b.date)
          (history.filterMap (priceRowToPoint ticker)) with
      | nil =>
          rw [hs] at hp
          exact Option.noConfusion hp
      | cons dp rest =>
          rw [hs] at hp
          have hrec := Option.some.inj hp
          subst hrec
          refine ⟨rfl, ?_⟩
          intro dp' hdp'
          have hmem : dp' ∈ pySort (fun a b => dateLe a.date b.date)
              (history.filterMap (priceRowToPoint ticker)) := by
            rw [hs]
            exact hdp'
          have hfm := (mem_pySort _ dp' _).mp hmem
          obtain ⟨r, hr, hf⟩ := List.mem_filterMap.mp hfm
          rw [priceRowToPoint] at hf
          cases hc : r.2.Close with
          | none => rw [hc] at hf; exact Option.noConfusion hf
          | some c =>
              rw [hc] at hf
              have hrec := Option.some.inj hf
              subst hrec
              rfl

/-- Witness for C10: normalizing a profile for ticker `"msft"` yields a DTO
whose ticker is `"MSFT"`. -/
theorem dto_tickers_uppercased_witness :
    pyUpper "msft" = "MSFT" ∧
    (CompanyProfileDTO.mk "MSFT" (Val.vstr "Microsoft") (Val.vstr "Microsoft")
      Val.vnone Val.vnone Val.vnone Val.vnone Val.vnone Val.vnone).ticker =
      "MSFT" := by
  refine ⟨rfl, ?_⟩
  have h := (dto_tickers_uppercased "msft" [("longName", Val.vstr "Microsoft")]
    none none none none none []).1
    (CompanyProfileDTO.mk "MSFT" (Val.vstr "Microsoft") (Val.vstr "Microsoft")
      Val.vnone Val.vnone Val.vnone Val.vnone Val.vnone Val.vnone) rfl
  exact h.trans rfl

end BuffettScreener


